import Mathlib

/-!
Shallow embedding of `insilico_stimuli/stimuli.py`.

The generic enumeration engine (`StimuliSet` base class) is embedded with
computable definitions over an abstract value type; the four stimulus
synthesis formulas (Gabor, Plaids, DiffOfGaussians, CenterSurround) are
embedded over the real numbers.  Machine floats are modelled by `ℝ`;
`raise ValueError` is modelled by `Except.error`.
-/

/-! ## Mixed-radix decomposition (`np.unravel_index`, C order)

`np.unravel_index(idx, shape)` first checks `0 <= idx < prod(shape)` and
raises `ValueError` otherwise; on success it decomposes `idx` row-major:
the first axis digit is the quotient by the product of the remaining
axes, and the remainder is decomposed against the remaining axes. -/

def unravelDigits : List ℕ → ℕ → List ℕ
  | [], _ => []
  | _ :: ns, i => i / ns.prod :: unravelDigits ns (i % ns.prod)

/-- The inverse composition (row-major ravel), used only in proofs. -/
def ravelDigits : List ℕ → List ℕ → ℕ
  | _ :: ns, d :: ds => d * ns.prod + ravelDigits ns ds
  | _, _ => 0

def indexErrorMsg : String := "index out of bounds"

def npUnravelIndex (shape : List ℕ) (idx : ℤ) : Except String (List ℕ) :=
  if idx < 0 ∨ (shape.prod : ℤ) ≤ idx then Except.error indexErrorMsg
  else Except.ok (unravelDigits shape idx.toNat)

/-! ## `StimuliSet` base class

`params()` returns a list of `(value_list, name)` pairs; since the names
only serve to zip the resolved values into keyword arguments (names are
unique per synthesizer), the embedding keeps the ordered value lists and
passes resolved parameters positionally. -/

structure StimuliSet (α : Type) where
  valueLists : List (List α)

/-- `StimuliSet.num_params`: `[len(p[0]) for p in self.params()]`. -/
def StimuliSet.num_params {α : Type} (s : StimuliSet α) : List ℕ :=
  s.valueLists.map List.length

/-- `np.prod(self.num_params())`, the number of parameter combinations. -/
def StimuliSet.total {α : Type} (s : StimuliSet α) : ℕ :=
  s.num_params.prod

/-- `StimuliSet.params_from_idx`: `c = np.unravel_index(idx, num_params)`
then `[p[0][c[i]] for i, p in enumerate(self.params())]`. -/
def StimuliSet.params_from_idx {α : Type} [Inhabited α] (s : StimuliSet α)
    (idx : ℤ) : Except String (List α) :=
  (npUnravelIndex s.num_params idx).map fun c =>
    List.zipWith (fun p ci => p.getD ci default) s.valueLists c

/-- `StimuliSet.stimulus_from_idx`: `self.stimulus(**self.params_dict_from_idx(idx))`;
the synthesis formula `f` consumes the resolved parameters. -/
def StimuliSet.stimulus_from_idx {α : Type} [Inhabited α] (s : StimuliSet α)
    (f : List α → List (List ℝ)) (idx : ℤ) : Except String (List (List ℝ)) :=
  (s.params_from_idx idx).map f

/-! ## Batching (`StimuliSet.image_batches`)

`for batch_start in np.arange(0, num_stims, batch_size):` with
`batch_end = min(batch_start + batch_size, num_stims)` and
`images = [stimulus_from_idx(i) for i in range(batch_start, batch_end)]`.
The loop is embedded as a recursion on the start index. -/

def batchIndexChunks (b n start : ℕ) : List (List ℕ) :=
  if h : start < n ∧ 0 < b then
    List.range' start (min (start + b) n - start) :: batchIndexChunks b n (start + b)
  else []
termination_by n - start
decreasing_by omega

def StimuliSet.image_batches {α : Type} [Inhabited α] (s : StimuliSet α)
    (f : List α → List (List ℝ)) (b : ℕ) :
    List (List (Except String (List (List ℝ)))) :=
  (batchIndexChunks b s.total 0).map fun ch =>
    ch.map fun (i : ℕ) => s.stimulus_from_idx f (i : ℤ)

/-! ## Lemmas about the mixed-radix decomposition -/

theorem unravelDigits_length (s : List ℕ) (i : ℕ) :
    (unravelDigits s i).length = s.length := by
  induction s generalizing i with
  | nil => rfl
  | cons n ns ih => simp [unravelDigits, ih]

theorem prod_entry_pos {s : List ℕ} (hs : 0 < s.prod) {k : ℕ}
    (hk : k < s.length) : 0 < s.getD k 0 := by
  rcases Nat.eq_zero_or_pos (s.getD k 0) with h0 | h1
  · exfalso
    have hmem : s.getD k 0 ∈ s := by
      rw [List.getD_eq_getElem s 0 hk]
      exact List.getElem_mem hk
    rw [h0] at hmem
    have : s.prod = 0 := List.prod_eq_zero hmem
    omega
  · exact h1

/-- Helper for the digit formula: dividing out `Q` commutes with first
reducing mod `P`, provided `Q * m` divides `P`. -/
theorem mod_div_mod_eq (i P Q m : ℕ) (h : Q * m ∣ P) :
    i % P / Q % m = i / Q % m := by
  rcases Nat.eq_zero_or_pos P with hP | hP
  · subst hP; simp [Nat.mod_zero]
  have hQ : 0 < Q := by
    rcases Nat.eq_zero_or_pos Q with h0 | h1
    · exfalso; rcases h with ⟨t, ht⟩; rw [h0, Nat.zero_mul] at ht; omega
    · exact h1
  rcases h with ⟨t, ht⟩
  have hi : i = Q * (m * t * (i / P)) + i % P := by
    calc i = P * (i / P) + i % P := (Nat.div_add_mod i P).symm
    _ = Q * (m * t * (i / P)) + i % P := by rw [ht]; ring
  conv_rhs => rw [hi]
  rw [Nat.mul_add_div hQ, Nat.mul_assoc, Nat.mul_add_mod]

theorem unravelDigits_getD (s : List ℕ) (i : ℕ) (h : i < s.prod) :
    ∀ k, k < s.length →
      (unravelDigits s i).getD k 0 = i / (s.drop (k + 1)).prod % s.getD k 0 := by
  induction s generalizing i with
  | nil => intro k hk; simp at hk
  | cons n ns ih =>
    have hP : 0 < ns.prod := by
      rcases Nat.eq_zero_or_pos ns.prod with h0 | h1
      · exfalso; rw [List.prod_cons, h0, Nat.mul_zero] at h; omega
      · exact h1
    intro k hk
    cases k with
    | zero =>
      have hdiv : i / ns.prod < n := by
        rw [List.prod_cons] at h
        exact Nat.div_lt_of_lt_mul (by rw [Nat.mul_comm]; exact h)
      simp [unravelDigits, Nat.mod_eq_of_lt hdiv]
    | succ k =>
      have hk' : k < ns.length := by simpa using hk
      have hrec := ih (i % ns.prod) (Nat.mod_lt _ hP) k hk'
      have hdk : ns.drop k = ns.getD k 0 :: ns.drop (k + 1) := by
        rw [List.getD_eq_getElem ns 0 hk']
        exact List.drop_eq_getElem_cons hk'
      have hdropdvd : (ns.drop k).prod ∣ ns.prod := by
        conv_rhs => rw [← List.take_append_drop k ns]
        rw [List.prod_append]
        exact Dvd.intro_left _ rfl
      have hdvd : (ns.drop (k + 1)).prod * ns.getD k 0 ∣ ns.prod := by
        calc (ns.drop (k + 1)).prod * ns.getD k 0
            = (ns.drop k).prod := by rw [hdk, List.prod_cons, Nat.mul_comm]
        _ ∣ ns.prod := hdropdvd
      simp only [unravelDigits, List.getD_cons_succ, List.drop_succ_cons]
      rw [hrec]
      exact mod_div_mod_eq i ns.prod (ns.drop (k + 1)).prod (ns.getD k 0) hdvd

theorem unravelDigits_lt (s : List ℕ) (i : ℕ) (h : i < s.prod) :
    ∀ k, k < s.length → (unravelDigits s i).getD k 0 < s.getD k 0 := by
  intro k hk
  rw [unravelDigits_getD s i h k hk]
  exact Nat.mod_lt _ (prod_entry_pos (by omega) hk)

theorem ravel_unravel (s : List ℕ) (i : ℕ) (h : i < s.prod) :
    ravelDigits s (unravelDigits s i) = i := by
  induction s generalizing i with
  | nil =>
    simp [List.prod_nil] at h
    simp [unravelDigits, ravelDigits, h]
  | cons n ns ih =>
    have hP : 0 < ns.prod := by
      rcases Nat.eq_zero_or_pos ns.prod with h0 | h1
      · exfalso; rw [List.prod_cons, h0, Nat.mul_zero] at h; omega
      · exact h1
    simp only [unravelDigits, ravelDigits]
    rw [ih (i % ns.prod) (Nat.mod_lt _ hP)]
    rw [Nat.mul_comm]
    exact Nat.div_add_mod i ns.prod

theorem unravel_ravel (s : List ℕ) (ds : List ℕ) (hlen : ds.length = s.length)
    (hlt : ∀ k, k < s.length → ds.getD k 0 < s.getD k 0) :
    unravelDigits s (ravelDigits s ds) = ds ∧ ravelDigits s ds < s.prod := by
  induction s generalizing ds with
  | nil =>
    rw [List.length_nil, List.length_eq_zero] at hlen
    subst hlen
    exact ⟨rfl, by simp [ravelDigits]⟩
  | cons n ns ih =>
    cases ds with
    | nil => simp at hlen
    | cons d ds' =>
      have hd : d < n := hlt 0 (by simp)
      have hlen' : ds'.length = ns.length := by simpa using hlen
      have hlt' : ∀ k, k < ns.length → ds'.getD k 0 < ns.getD k 0 := by
        intro k hk
        have := hlt (k + 1) (by simpa using hk)
        simpa using this
      obtain ⟨hrec, hbound⟩ := ih ds' hlen' hlt'
      have hP : 0 < ns.prod := by omega
      constructor
      · simp only [ravelDigits, unravelDigits]
        have hdiv : (d * ns.prod + ravelDigits ns ds') / ns.prod = d := by
          rw [Nat.mul_comm d ns.prod, Nat.mul_add_div hP,
            Nat.div_eq_of_lt hbound, Nat.add_zero]
        have hmod : (d * ns.prod + ravelDigits ns ds') % ns.prod
            = ravelDigits ns ds' := by
          rw [Nat.mul_comm d ns.prod, Nat.mul_add_mod, Nat.mod_eq_of_lt hbound]
        rw [hdiv, hmod, hrec]
      · simp only [ravelDigits, List.prod_cons]
        calc d * ns.prod + ravelDigits ns ds' < d * ns.prod + ns.prod := by omega
        _ = (d + 1) * ns.prod := by ring
        _ ≤ n * ns.prod := Nat.mul_le_mul_right _ (by omega)

/-! ## Lemmas about the batching loop -/

theorem batchIndexChunks_eq_nil {b n start : ℕ} (h : ¬(start < n ∧ 0 < b)) :
    batchIndexChunks b n start = [] := by
  unfold batchIndexChunks
  rw [dif_neg h]

theorem batchIndexChunks_eq_cons {b n start : ℕ} (h : start < n ∧ 0 < b) :
    batchIndexChunks b n start =
      List.range' start (min (start + b) n - start) ::
        batchIndexChunks b n (start + b) := by
  conv_lhs => unfold batchIndexChunks
  rw [dif_pos h]

theorem batchIndexChunks_join_aux (b n : ℕ) (hb : 0 < b) :
    ∀ fuel start, n - start ≤ fuel →
      (batchIndexChunks b n start).flatten = List.range' start (n - start) := by
  intro fuel
  induction fuel with
  | zero =>
    intro start hle
    rw [batchIndexChunks_eq_nil (by omega)]
    have h0 : n - start = 0 := by omega
    rw [h0]
    rfl
  | succ fuel ih =>
    intro start hle
    by_cases hs : start < n
    · rw [batchIndexChunks_eq_cons ⟨hs, hb⟩]
      rw [List.flatten_cons, ih (start + b) (by omega)]
      by_cases hsb : start + b ≤ n
      · have hmin : min (start + b) n - start = b := by omega
        rw [hmin]
        have happ := List.range'_append_1 start b (n - (start + b))
        rw [happ]
        congr 1
        omega
      · have hmin : min (start + b) n - start = n - start := by omega
        rw [hmin]
        have h0 : n - (start + b) = 0 := by omega
        rw [h0]
        simp
    · rw [batchIndexChunks_eq_nil (by omega)]
      have h0 : n - start = 0 := by omega
      rw [h0]
      rfl

theorem batchIndexChunks_join (b n : ℕ) (hb : 0 < b) (start : ℕ) :
    (batchIndexChunks b n start).flatten = List.range' start (n - start) :=
  batchIndexChunks_join_aux b n hb (n - start) start (Nat.le_refl _)

theorem batchIndexChunks_dropLast_aux (b n : ℕ) (hb : 0 < b) :
    ∀ fuel start, n - start ≤ fuel →
      ∀ ch ∈ (batchIndexChunks b n start).dropLast, ch.length = b := by
  intro fuel
  induction fuel with
  | zero =>
    intro start hle
    rw [batchIndexChunks_eq_nil (by omega)]
    intro ch hch
    simp at hch
  | succ fuel ih =>
    intro start hle
    by_cases hs : start < n
    · rw [batchIndexChunks_eq_cons ⟨hs, hb⟩]
      by_cases hrest : start + b < n
      · rw [List.dropLast_cons_of_ne_nil
          (by rw [batchIndexChunks_eq_cons ⟨hrest, hb⟩]; exact List.cons_ne_nil _ _)]
        intro ch hch
        rcases List.mem_cons.mp hch with hhd | htl
        · rw [hhd, List.length_range']
          omega
        · exact ih (start + b) (by omega) ch htl
      · rw [batchIndexChunks_eq_nil (by omega)]
        intro ch hch
        simp at hch
    · rw [batchIndexChunks_eq_nil (by omega)]
      intro ch hch
      simp at hch

theorem batchIndexChunks_getLast_aux (b n : ℕ) (hb : 0 < b) :
    ∀ fuel start, n - start ≤ fuel → start < n → b ∣ start →
      ∀ ch, (batchIndexChunks b n start).getLast? = some ch →
        ch.length = if n % b = 0 then b else n % b := by
  intro fuel
  induction fuel with
  | zero =>
    intro start hle hs
    omega
  | succ fuel ih =>
    intro start hle hs hdvd ch hch
    rw [batchIndexChunks_eq_cons ⟨hs, hb⟩] at hch
    by_cases hrest : start + b < n
    · rw [batchIndexChunks_eq_cons ⟨hrest, hb⟩, List.getLast?_cons_cons] at hch
      refine ih (start + b) (by omega) hrest (Nat.dvd_add hdvd (dvd_refl b)) ch ?hlast
      rw [batchIndexChunks_eq_cons ⟨hrest, hb⟩]
      exact hch
    · rw [batchIndexChunks_eq_nil (by omega)] at hch
      rw [List.getLast?_singleton] at hch
      have hch' : ch = List.range' start (min (start + b) n - start) := by
        exact (Option.some.injEq _ _).mp hch |>.symm
      rw [hch', List.length_range']
      rcases hdvd with ⟨q, hq⟩
      by_cases heq : start + b = n
      · have hmodz : n % b = 0 := by
          have hn1 : n = b * (q + 1) := by rw [Nat.mul_add, Nat.mul_one]; omega
          rw [hn1]
          exact Nat.mul_mod_right b (q + 1)
        rw [hmodz]
        simp
        omega
      · have hlt : n - start < b := by omega
        have hmodn : n % b = n - start := by
          have hns : n = b * q + (n - start) := by omega
          conv_lhs => rw [hns]
          rw [Nat.mul_add_mod]
          exact Nat.mod_eq_of_lt hlt
        rw [hmodn]
        have hne : ¬ (n % b = 0) := by omega
        rw [hmodn] at hne
        rw [if_neg hne]
        omega

theorem batchIndexChunks_getLast (b n : ℕ) (hb : 0 < b) (hn : 0 < n) :
    ∀ ch, (batchIndexChunks b n 0).getLast? = some ch →
      ch.length = if n % b = 0 then b else n % b :=
  batchIndexChunks_getLast_aux b n hb n 0 (by omega) hn (Dvd.intro 0 rfl)

/-! ## GaborSet

Resolved configuration of a `GaborSet` instance: the constructor
conveniences (grid expansion of `center_range`, integer-count expansion
of orientations/phases, eccentricity-to-gamma conversion, default pixel
boundaries) all happen before the methods below run, so the embedding
holds the resolved value lists.  `canvas_size` is `[width, height]`. -/

structure GaborSet where
  canvas_size : ℕ × ℕ
  locations : List (ℝ × ℝ)
  sizes : List ℝ
  spatial_frequencies : List ℝ
  contrasts : List ℝ
  orientations : List ℝ
  phases : List ℝ
  gammas : List ℝ
  grey_level : ℝ
  pixel_boundaries : ℝ × ℝ
  relative_sf : Bool

/-- A fully resolved Gabor parameter assignment (one combination). -/
structure GaborParams where
  location : ℝ × ℝ
  size : ℝ
  spatial_frequency : ℝ
  contrast : ℝ
  orientation : ℝ
  phase : ℝ
  gamma : ℝ

/-- Descriptor order of `GaborSet.params`. -/
def GaborSet.num_params (g : GaborSet) : List ℕ :=
  [g.locations.length, g.sizes.length, g.spatial_frequencies.length,
   g.contrasts.length, g.orientations.length, g.phases.length, g.gammas.length]

def GaborSet.total (g : GaborSet) : ℕ := g.num_params.prod

/-- `GaborSet.params_from_idx` (the override): unravels `idx`, selects one
value per descriptor, then `if self.relative_sf: params[2] /= params[1]`. -/
noncomputable def GaborSet.params_from_idx (g : GaborSet) (idx : ℤ) :
    Except String GaborParams :=
  (npUnravelIndex g.num_params idx).map fun c =>
    let size := g.sizes.getD (c.getD 1 0) 0
    let sf := g.spatial_frequencies.getD (c.getD 2 0) 0
    { location := g.locations.getD (c.getD 0 0) (0, 0)
      size := size
      spatial_frequency := if g.relative_sf then sf / size else sf
      contrast := g.contrasts.getD (c.getD 3 0) 0
      orientation := g.orientations.getD (c.getD 4 0) 0
      phase := g.phases.getD (c.getD 5 0) 0
      gamma := g.gammas.getD (c.getD 6 0) 0 }

/-! The Gabor formula, per pixel.  `np.meshgrid(arange(w) - lx, arange(h) - ly)`
puts `x = col - location[0]` and `y = row - location[1]` at array entry
`(row, col)`; the rotation matrix `[[cos, -sin], [sin, cos]]` is applied
to the stacked `(x, y)`. -/

noncomputable def gabor_x (p : GaborParams) (row col : ℕ) : ℝ :=
  Real.cos p.orientation * ((col : ℝ) - p.location.1)
    - Real.sin p.orientation * ((row : ℝ) - p.location.2)

noncomputable def gabor_y (p : GaborParams) (row col : ℕ) : ℝ :=
  Real.sin p.orientation * ((col : ℝ) - p.location.1)
    + Real.cos p.orientation * ((row : ℝ) - p.location.2)

noncomputable def gabor_envelope (p : GaborParams) (row col : ℕ) : ℝ :=
  Real.exp (-((gabor_x p row col) ^ 2 + p.gamma * (gabor_y p row col) ^ 2)
    / (2 * (p.size / 4) ^ 2))

noncomputable def gabor_grating (p : GaborParams) (row col : ℕ) : ℝ :=
  Real.cos (p.spatial_frequency * gabor_x p row col * (2 * Real.pi) + p.phase)

/-- `contrast * min(abs(pixel_boundaries[0] - grey_level), abs(pixel_boundaries[1] - grey_level))`. -/
noncomputable def gabor_amplitude (grey : ℝ) (pb : ℝ × ℝ) (contrast : ℝ) : ℝ :=
  contrast * min |pb.1 - grey| |pb.2 - grey|

/-- One pixel of the Gabor stimulus: `amplitude * (envelope * grating) + grey_level`. -/
noncomputable def gabor_pixel (grey : ℝ) (pb : ℝ × ℝ) (p : GaborParams)
    (row col : ℕ) : ℝ :=
  gabor_amplitude grey pb p.contrast * (gabor_envelope p row col * gabor_grating p row col)
    + grey

/-- `GaborSet.stimulus`: the returned array has shape `(height, width)`. -/
noncomputable def GaborSet.stimulus (canvas : ℕ × ℕ) (grey : ℝ) (pb : ℝ × ℝ)
    (p : GaborParams) : List (List ℝ) :=
  (List.range canvas.2).map fun row =>
    (List.range canvas.1).map fun col => gabor_pixel grey pb p row col

noncomputable def GaborSet.stimulus_from_idx (g : GaborSet) (idx : ℤ) :
    Except String (List (List ℝ)) :=
  (g.params_from_idx idx).map fun p =>
    GaborSet.stimulus g.canvas_size g.grey_level g.pixel_boundaries p

/-! ## PlaidsSet

`PlaidsSet.stimulus` calls the parent Gabor formula twice — once with
`orientation` and `contrast_preferred`, once with `orientation + np.pi/2`
and `contrast_orthogonal`, all other parameters shared — and returns the
elementwise numpy sum `gabor_preferred + gabor_orthogonal`. -/

structure PlaidParams where
  location : ℝ × ℝ
  size : ℝ
  spatial_frequency : ℝ
  orientation : ℝ
  phase : ℝ
  gamma : ℝ
  contrast_preferred : ℝ
  contrast_orthogonal : ℝ

def PlaidParams.preferredGabor (p : PlaidParams) : GaborParams :=
  { location := p.location, size := p.size, spatial_frequency := p.spatial_frequency
    contrast := p.contrast_preferred, orientation := p.orientation
    phase := p.phase, gamma := p.gamma }

noncomputable def PlaidParams.orthogonalGabor (p : PlaidParams) : GaborParams :=
  { location := p.location, size := p.size, spatial_frequency := p.spatial_frequency
    contrast := p.contrast_orthogonal, orientation := p.orientation + Real.pi / 2
    phase := p.phase, gamma := p.gamma }

noncomputable def PlaidsSet.stimulus (canvas : ℕ × ℕ) (grey : ℝ) (pb : ℝ × ℝ)
    (p : PlaidParams) : List (List ℝ) :=
  List.zipWith (List.zipWith (· + ·))
    (GaborSet.stimulus canvas grey pb p.preferredGabor)
    (GaborSet.stimulus canvas grey pb p.orthogonalGabor)

/-- Modelled from the spec (§4.3): "invoke the Gabor formula twice with the
same location/size/frequency/phase/gamma — once with `orientation` and
`contrastPreferred`, once with `orientation + π/2` and `contrastOrthogonal`
— and sum the two results pixel-wise". -/
noncomputable def plaidSpecStimulus (canvas : ℕ × ℕ) (grey : ℝ) (pb : ℝ × ℝ)
    (p : PlaidParams) : List (List ℝ) :=
  (List.range canvas.2).map fun row =>
    (List.range canvas.1).map fun col =>
      gabor_pixel grey pb p.preferredGabor row col
        + gabor_pixel grey pb p.orthogonalGabor row col

/-! ## DiffOfGaussians -/

structure DiffOfGaussians where
  canvas_size : ℕ × ℕ
  locations : List (ℝ × ℝ)
  sizes : List ℝ
  sizes_scale_surround : List ℝ
  contrasts : List ℝ
  contrasts_scale_surround : List ℝ
  grey_level : ℝ
  pixel_boundaries : ℝ × ℝ

structure DoGParams where
  location : ℝ × ℝ
  size : ℝ
  size_scale_surround : ℝ
  contrast : ℝ
  contrast_scale_surround : ℝ

/-- `DiffOfGaussians.gaussian_density` evaluated at one coordinate pair
`(x, y)` (the code's `coords` rows are `(x, y)` pairs from the meshgrid). -/
noncomputable def gaussian_density (coord mean : ℝ × ℝ) (scale : ℝ) : ℝ :=
  Real.exp (-((coord.1 - mean.1) ^ 2 + (coord.2 - mean.2) ^ 2) / (2 * scale ^ 2))

/-- The raw field `center - contrast_scale_surround * surround` at array
entry `(row, col)`; the reshape to `canvas_size[::-1]` puts coordinate
`(x, y) = (col, row)` there. -/
noncomputable def dog_raw (p : DoGParams) (row col : ℕ) : ℝ :=
  gaussian_density ((col : ℝ), (row : ℝ)) p.location p.size
    - p.contrast_scale_surround *
      gaussian_density ((col : ℝ), (row : ℝ)) p.location (p.size_scale_surround * p.size)

/-- `.min()` of a numpy array flattened to a list (nonempty canvases). -/
noncomputable def listMin : List ℝ → ℝ
  | [] => 0
  | [a] => a
  | a :: b :: rest => min a (listMin (b :: rest))

noncomputable def listMax : List ℝ → ℝ
  | [] => 0
  | [a] => a
  | a :: b :: rest => max a (listMax (b :: rest))

noncomputable def dog_raw_values (d : DiffOfGaussians) (p : DoGParams) : List ℝ :=
  ((List.range d.canvas_size.2).map fun row =>
    (List.range d.canvas_size.1).map fun col => dog_raw p row col).flatten

/-- `DiffOfGaussians.stimulus`: raises `ValueError` when
`size_scale_surround <= 1`, otherwise normalizes the raw field so its
amplitude is `contrast * min(|low - grey|, |high - grey|)` and adds the
grey level. -/
noncomputable def DiffOfGaussians.stimulus (d : DiffOfGaussians) (p : DoGParams) :
    Except String (List (List ℝ)) :=
  if p.size_scale_surround ≤ 1 then
    Except.error "size_surround must be larger than 1."
  else
    let minVal := listMin (dog_raw_values d p)
    let maxVal := listMax (dog_raw_values d p)
    let amplitude_current := max |minVal| |maxVal|
    let amplitude_required := p.contrast *
      min |d.pixel_boundaries.1 - d.grey_level| |d.pixel_boundaries.2 - d.grey_level|
    let contrast_scaling := amplitude_required / amplitude_current
    Except.ok ((List.range d.canvas_size.2).map fun row =>
      (List.range d.canvas_size.1).map fun col =>
        contrast_scaling * dog_raw p row col + d.grey_level)

/-! ## CenterSurround

`CenterSurround` overrides neither `params_from_idx` nor
`params_dict_from_idx`: index resolution is the base-class mixed-radix
selection with **no** relative-spatial-frequency division, even though the
constructor stores `self.relative_sf` (that attribute is never read). -/

structure CenterSurround where
  canvas_size : ℕ × ℕ
  locations : List (ℝ × ℝ)
  sizes_total : List ℝ
  sizes_center : List ℝ
  sizes_surround : List ℝ
  contrasts_center : List ℝ
  contrasts_surround : List ℝ
  orientations_center : List ℝ
  orientations_surround : List ℝ
  spatial_frequencies : List ℝ
  phases_center : List ℝ
  phases_surround : List ℝ
  grey_level : ℝ
  pixel_boundaries : ℝ × ℝ
  relative_sf : Bool

structure CenterSurroundParams where
  location : ℝ × ℝ
  size_total : ℝ
  size_center : ℝ
  size_surround : ℝ
  contrast_center : ℝ
  contrast_surround : ℝ
  orientation_center : ℝ
  orientation_surround : ℝ
  spatial_frequency : ℝ
  phase_center : ℝ
  phase_surround : ℝ

/-- Descriptor order of `CenterSurround.params`. -/
def CenterSurround.num_params (s : CenterSurround) : List ℕ :=
  [s.locations.length, s.sizes_total.length, s.sizes_center.length,
   s.sizes_surround.length, s.contrasts_center.length, s.contrasts_surround.length,
   s.orientations_center.length, s.orientations_surround.length,
   s.spatial_frequencies.length, s.phases_center.length, s.phases_surround.length]

def CenterSurround.total (s : CenterSurround) : ℕ := s.num_params.prod

/-- The inherited `StimuliSet.params_from_idx` specialised to the
`CenterSurround` descriptor list: plain mixed-radix selection, with no
spatial-frequency adjustment (`relative_sf` is ignored by the code). -/
noncomputable def CenterSurround.params_from_idx (s : CenterSurround) (idx : ℤ) :
    Except String CenterSurroundParams :=
  (npUnravelIndex s.num_params idx).map fun c =>
    { location := s.locations.getD (c.getD 0 0) (0, 0)
      size_total := s.sizes_total.getD (c.getD 1 0) 0
      size_center := s.sizes_center.getD (c.getD 2 0) 0
      size_surround := s.sizes_surround.getD (c.getD 3 0) 0
      contrast_center := s.contrasts_center.getD (c.getD 4 0) 0
      contrast_surround := s.contrasts_surround.getD (c.getD 5 0) 0
      orientation_center := s.orientations_center.getD (c.getD 6 0) 0
      orientation_surround := s.orientations_surround.getD (c.getD 7 0) 0
      spatial_frequency := s.spatial_frequencies.getD (c.getD 8 0) 0
      phase_center := s.phases_center.getD (c.getD 9 0) 0
      phase_surround := s.phases_surround.getD (c.getD 10 0) 0 }

/-! The CenterSurround formula, per pixel.  Two independently rotated
frames (one per orientation); hard-edged boolean masks multiplied into
amplitude-scaled gratings. -/

noncomputable def cs_x_center (p : CenterSurroundParams) (row col : ℕ) : ℝ :=
  Real.cos p.orientation_center * ((col : ℝ) - p.location.1)
    - Real.sin p.orientation_center * ((row : ℝ) - p.location.2)

noncomputable def cs_y_center (p : CenterSurroundParams) (row col : ℕ) : ℝ :=
  Real.sin p.orientation_center * ((col : ℝ) - p.location.1)
    + Real.cos p.orientation_center * ((row : ℝ) - p.location.2)

noncomputable def cs_x_surround (p : CenterSurroundParams) (row col : ℕ) : ℝ :=
  Real.cos p.orientation_surround * ((col : ℝ) - p.location.1)
    - Real.sin p.orientation_surround * ((row : ℝ) - p.location.2)

noncomputable def cs_y_surround (p : CenterSurroundParams) (row col : ℕ) : ℝ :=
  Real.sin p.orientation_surround * ((col : ℝ) - p.location.1)
    + Real.cos p.orientation_surround * ((row : ℝ) - p.location.2)

noncomputable def cs_norm_center (p : CenterSurroundParams) (row col : ℕ) : ℝ :=
  Real.sqrt ((cs_x_center p row col) ^ 2 + (cs_y_center p row col) ^ 2)

noncomputable def cs_norm_surround (p : CenterSurroundParams) (row col : ℕ) : ℝ :=
  Real.sqrt ((cs_x_surround p row col) ^ 2 + (cs_y_surround p row col) ^ 2)

/-- `envelope_center = (norm_xy_center <= size_center * size_total)` as a
0/1 indicator (numpy booleans act as 0/1 under multiplication). -/
noncomputable def cs_envelope_center (p : CenterSurroundParams) (row col : ℕ) : ℝ :=
  if cs_norm_center p row col ≤ p.size_center * p.size_total then 1 else 0

/-- `envelope_surround = (norm_xy_surround > size_surround * size_total) *
(norm_xy_surround <= size_total)` as a 0/1 indicator. -/
noncomputable def cs_envelope_surround (p : CenterSurroundParams) (row col : ℕ) : ℝ :=
  if p.size_surround * p.size_total < cs_norm_surround p row col
      ∧ cs_norm_surround p row col ≤ p.size_total then 1 else 0

noncomputable def cs_grating_center (p : CenterSurroundParams) (row col : ℕ) : ℝ :=
  Real.cos (p.spatial_frequency * cs_x_center p row col * (2 * Real.pi) + p.phase_center)

noncomputable def cs_grating_surround (p : CenterSurroundParams) (row col : ℕ) : ℝ :=
  Real.cos (p.spatial_frequency * cs_x_surround p row col * (2 * Real.pi) + p.phase_surround)

/-- One pixel of the CenterSurround stimulus:
`envelope_center * (amplitude_center * grating_center) +
 envelope_surround * (amplitude_surround * grating_surround)`
(note: no grey-level term). -/
noncomputable def cs_pixel (grey : ℝ) (pb : ℝ × ℝ) (p : CenterSurroundParams)
    (row col : ℕ) : ℝ :=
  cs_envelope_center p row col
      * (p.contrast_center * min |pb.1 - grey| |pb.2 - grey| * cs_grating_center p row col)
    + cs_envelope_surround p row col
      * (p.contrast_surround * min |pb.1 - grey| |pb.2 - grey| * cs_grating_surround p row col)

/-- `CenterSurround.stimulus`: raises `ValueError` when
`size_center > size_surround`, before any pixel computation. -/
noncomputable def CenterSurround.stimulus (s : CenterSurround)
    (p : CenterSurroundParams) : Except String (List (List ℝ)) :=
  if p.size_surround < p.size_center then
    Except.error "size_center cannot be larger than size_surround"
  else
    Except.ok ((List.range s.canvas_size.2).map fun row =>
      (List.range s.canvas_size.1).map fun col =>
        cs_pixel s.grey_level s.pixel_boundaries p row col)

noncomputable def CenterSurround.stimulus_from_idx (s : CenterSurround) (idx : ℤ) :
    Except String (List (List ℝ)) :=
  (s.params_from_idx idx).bind fun p => s.stimulus p

/-! ## Helper lemmas for the synthesis formulas -/

theorem gabor_envelope_le_one (p : GaborParams) (row col : ℕ)
    (hg : 0 ≤ p.gamma) : |gabor_envelope p row col| ≤ 1 := by
  unfold gabor_envelope
  rw [abs_of_pos (Real.exp_pos _)]
  rw [Real.exp_le_one_iff]
  apply div_nonpos_of_nonpos_of_nonneg
  · have h1 : 0 ≤ (gabor_x p row col) ^ 2 := sq_nonneg _
    have h2 : 0 ≤ p.gamma * (gabor_y p row col) ^ 2 :=
      mul_nonneg hg (sq_nonneg _)
    linarith
  · positivity

theorem abs_env_grating_le_one (p : GaborParams) (row col : ℕ)
    (hg : 0 ≤ p.gamma) :
    |gabor_envelope p row col * gabor_grating p row col| ≤ 1 := by
  rw [abs_mul]
  have h1 := gabor_envelope_le_one p row col hg
  have h2 : |gabor_grating p row col| ≤ 1 := by
    unfold gabor_grating
    exact Real.abs_cos_le_one _
  have h0 : 0 ≤ |gabor_envelope p row col| := abs_nonneg _
  calc |gabor_envelope p row col| * |gabor_grating p row col|
      ≤ 1 * 1 := by
        apply mul_le_mul h1 h2 (abs_nonneg _) (by norm_num)
  _ = 1 := by norm_num

/-- Rotation preserves the squared norm. -/
theorem rot_sq_add (θ a b : ℝ) :
    (Real.cos θ * a - Real.sin θ * b) ^ 2
      + (Real.sin θ * a + Real.cos θ * b) ^ 2 = a ^ 2 + b ^ 2 := by
  linear_combination (a ^ 2 + b ^ 2) * Real.sin_sq_add_cos_sq θ

/-- The two CenterSurround radius fields coincide: the rotations differ
but both preserve the distance to `location`. -/
theorem cs_norm_center_eq_surround (p : CenterSurroundParams) (row col : ℕ) :
    cs_norm_center p row col = cs_norm_surround p row col := by
  unfold cs_norm_center cs_norm_surround
  unfold cs_x_center cs_y_center cs_x_surround cs_y_surround
  rw [rot_sq_add, rot_sq_add]

theorem zipWith_map_same {α β γ δ : Type} (h : β → γ → δ) (f : α → β) (g : α → γ) :
    ∀ l : List α, List.zipWith h (l.map f) (l.map g) = l.map fun x => h (f x) (g x) := by
  intro l
  induction l with
  | nil => rfl
  | cons a l ih => simp [ih]

/-- The Plaid image is the row/column table of pixelwise Gabor sums. -/
theorem plaid_stimulus_eq_map (canvas : ℕ × ℕ) (grey : ℝ) (pb : ℝ × ℝ)
    (p : PlaidParams) :
    PlaidsSet.stimulus canvas grey pb p =
      (List.range canvas.2).map fun row =>
        (List.range canvas.1).map fun col =>
          gabor_pixel grey pb p.preferredGabor row col
            + gabor_pixel grey pb p.orthogonalGabor row col := by
  unfold PlaidsSet.stimulus GaborSet.stimulus
  rw [zipWith_map_same]
  congr 1
  funext row
  rw [zipWith_map_same]

/-- Generic entry lookup in a `(height, width)` pixel table built from
`List.range`. -/
theorem getD_table {f : ℕ → ℕ → ℝ} {h w row col : ℕ} (hr : row < h) (hc : col < w) :
    (((List.range h).map fun r => (List.range w).map fun c => f r c).getD row []).getD col 0
      = f row col := by
  have hr1 : row < ((List.range h).map fun r =>
      (List.range w).map fun c => f r c).length := by
    simpa using hr
  rw [List.getD_eq_getElem _ [] hr1, List.getElem_map, List.getElem_range]
  have hc1 : col < ((List.range w).map fun c => f row c).length := by
    simpa using hc
  rw [List.getD_eq_getElem _ 0 hc1, List.getElem_map, List.getElem_range]

/-! ## Claim theorems -/

/-- Claim C7: `DiffOfGaussians.stimulus` fails with the domain-validation
error exactly when `size_scale_surround <= 1`, and `CenterSurround.stimulus`
fails exactly when `size_center > size_surround`; the guards run before any
pixel computation, so the error is independent of the canvas contents. -/
theorem claim_C7_domain_validation :
    (∀ (d : DiffOfGaussians) (p : DoGParams),
      (∃ e, DiffOfGaussians.stimulus d p = Except.error e) ↔ p.size_scale_surround ≤ 1)
    ∧ (∀ (s : CenterSurround) (p : CenterSurroundParams),
      (∃ e, CenterSurround.stimulus s p = Except.error e) ↔ p.size_surround < p.size_center) := by
  constructor
  · intro d p
    unfold DiffOfGaussians.stimulus
    by_cases h : p.size_scale_surround ≤ 1
    · rw [if_pos h]
      exact ⟨fun _ => h, fun _ => ⟨_, rfl⟩⟩
    · rw [if_neg h]
      constructor
      · rintro ⟨e, he⟩
        exact absurd he (by simp)
      · intro h1
        exact absurd h1 h
  · intro s p
    unfold CenterSurround.stimulus
    by_cases h : p.size_surround < p.size_center
    · rw [if_pos h]
      exact ⟨fun _ => h, fun _ => ⟨_, rfl⟩⟩
    · rw [if_neg h]
      constructor
      · rintro ⟨e, he⟩
        exact absurd he (by simp)
      · intro h1
        exact absurd h1 h

/-- Claim C4: for a valid CenterSurround assignment, a pixel outside the
center disk and outside the surround annulus gets the exact value `0`
(not `grey_level`): the formula is mask-times-grating with no added
grey-level term. -/
theorem claim_C4_outside_masks_zero (grey : ℝ) (pb : ℝ × ℝ)
    (p : CenterSurroundParams) (row col : ℕ)
    (hvalid : p.size_center ≤ p.size_surround)
    (hc : p.size_center * p.size_total < cs_norm_center p row col)
    (hs : ¬(p.size_surround * p.size_total < cs_norm_surround p row col
        ∧ cs_norm_surround p row col ≤ p.size_total)) :
    cs_pixel grey pb p row col = 0
    ∧ (grey ≠ 0 → cs_pixel grey pb p row col ≠ grey) := by
  have hec : cs_envelope_center p row col = 0 := by
    unfold cs_envelope_center
    rw [if_neg (by linarith)]
  have hes : cs_envelope_surround p row col = 0 := by
    unfold cs_envelope_surround
    rw [if_neg hs]
  have hzero : cs_pixel grey pb p row col = 0 := by
    unfold cs_pixel
    rw [hec, hes]
    ring
  refine ⟨hzero, ?hne⟩
  intro hg
  rw [hzero]
  exact fun hx => hg hx.symm

noncomputable def csParamsC4 : CenterSurroundParams :=
  { location := (0, 0), size_total := 1/2, size_center := 1/4, size_surround := 1/2
    contrast_center := 1, contrast_surround := 1, orientation_center := 0
    orientation_surround := 0, spatial_frequency := 1, phase_center := 0
    phase_surround := 0 }

theorem csParamsC4_norm_center : cs_norm_center csParamsC4 0 1 = 1 := by
  have h1 : cs_x_center csParamsC4 0 1 = 1 := by
    unfold cs_x_center csParamsC4
    simp [Real.cos_zero, Real.sin_zero]
  have h2 : cs_y_center csParamsC4 0 1 = 0 := by
    unfold cs_y_center csParamsC4
    simp [Real.cos_zero, Real.sin_zero]
  unfold cs_norm_center
  rw [h1, h2]
  norm_num

theorem claim_C4_witness :
    (csParamsC4.size_center ≤ csParamsC4.size_surround
      ∧ csParamsC4.size_center * csParamsC4.size_total < cs_norm_center csParamsC4 0 1
      ∧ ¬(csParamsC4.size_surround * csParamsC4.size_total < cs_norm_surround csParamsC4 0 1
          ∧ cs_norm_surround csParamsC4 0 1 ≤ csParamsC4.size_total))
    ∧ cs_pixel 0 (-1, 1) csParamsC4 0 1 = 0 := by
  have hns : cs_norm_surround csParamsC4 0 1 = 1 := by
    rw [← cs_norm_center_eq_surround]
    exact csParamsC4_norm_center
  have hA : csParamsC4.size_center ≤ csParamsC4.size_surround := by
    norm_num [csParamsC4]
  have hB : csParamsC4.size_center * csParamsC4.size_total
      < cs_norm_center csParamsC4 0 1 := by
    rw [csParamsC4_norm_center]
    norm_num [csParamsC4]
  have hC : ¬(csParamsC4.size_surround * csParamsC4.size_total
      < cs_norm_surround csParamsC4 0 1
      ∧ cs_norm_surround csParamsC4 0 1 ≤ csParamsC4.size_total) := by
    rw [hns]
    norm_num [csParamsC4]
  exact ⟨⟨hA, hB, hC⟩, (claim_C4_outside_masks_zero 0 (-1, 1) csParamsC4 0 1 hA hB hC).1⟩

/-- Claim C6: with `size_center <= size_surround` the center mask and the
surround mask are disjoint at every pixel, even though the two radius
fields live in two differently rotated coordinate frames. -/
theorem claim_C6_masks_disjoint (p : CenterSurroundParams) (row col : ℕ)
    (h : p.size_center ≤ p.size_surround) :
    ¬(cs_norm_center p row col ≤ p.size_center * p.size_total
      ∧ p.size_surround * p.size_total < cs_norm_surround p row col
      ∧ cs_norm_surround p row col ≤ p.size_total) := by
  rintro ⟨h1, h2, h3⟩
  have heq := cs_norm_center_eq_surround p row col
  rcases le_or_lt 0 p.size_total with hst | hst
  · have hmono : p.size_center * p.size_total ≤ p.size_surround * p.size_total :=
      mul_le_mul_of_nonneg_right h hst
    linarith
  · have hnn : 0 ≤ cs_norm_surround p row col := by
      unfold cs_norm_surround
      exact Real.sqrt_nonneg _
    linarith

noncomputable def csParamsC6 : CenterSurroundParams :=
  { location := (0, 0), size_total := 1, size_center := 1/4, size_surround := 1/2
    contrast_center := 1, contrast_surround := 1, orientation_center := 0
    orientation_surround := 1, spatial_frequency := 1, phase_center := 0
    phase_surround := 0 }

theorem claim_C6_witness :
    csParamsC6.size_center ≤ csParamsC6.size_surround
    ∧ ¬(cs_norm_center csParamsC6 0 1 ≤ csParamsC6.size_center * csParamsC6.size_total
        ∧ csParamsC6.size_surround * csParamsC6.size_total < cs_norm_surround csParamsC6 0 1
        ∧ cs_norm_surround csParamsC6 0 1 ≤ csParamsC6.size_total) :=
  ⟨by norm_num [csParamsC6],
   claim_C6_masks_disjoint csParamsC6 0 1 (by norm_num [csParamsC6])⟩

/-- Claim C5: the Plaid stimulus is exactly the pixel-wise sum of the two
Gabor stimuli obtained from the shared location/size/frequency/phase/gamma,
one with `orientation` and `contrast_preferred`, the other with
`orientation + pi/2` and `contrast_orthogonal`. -/
theorem claim_C5_plaid_refinement (canvas : ℕ × ℕ) (grey : ℝ) (pb : ℝ × ℝ)
    (p : PlaidParams) :
    PlaidsSet.stimulus canvas grey pb p = plaidSpecStimulus canvas grey pb p := by
  rw [plaid_stimulus_eq_map]
  rfl

/-- Claim C10: each of the two Gabor invocations inside the Plaid formula
adds `grey_level`, so every Plaid pixel is the two amplitude-scaled
envelope-grating terms plus `2 * grey_level`; with both contrasts zero
every pixel equals `2 * grey_level` (not `grey_level`). -/
theorem claim_C10_plaid_double_grey (canvas : ℕ × ℕ) (grey : ℝ) (pb : ℝ × ℝ)
    (p : PlaidParams) (row col : ℕ) (hr : row < canvas.2) (hc : col < canvas.1) :
    ((PlaidsSet.stimulus canvas grey pb p).getD row []).getD col 0
      = gabor_amplitude grey pb p.contrast_preferred
          * (gabor_envelope p.preferredGabor row col * gabor_grating p.preferredGabor row col)
        + gabor_amplitude grey pb p.contrast_orthogonal
          * (gabor_envelope p.orthogonalGabor row col * gabor_grating p.orthogonalGabor row col)
        + 2 * grey
    ∧ (p.contrast_preferred = 0 → p.contrast_orthogonal = 0 →
        ((PlaidsSet.stimulus canvas grey pb p).getD row []).getD col 0 = 2 * grey) := by
  have hentry : ((PlaidsSet.stimulus canvas grey pb p).getD row []).getD col 0
      = gabor_pixel grey pb p.preferredGabor row col
        + gabor_pixel grey pb p.orthogonalGabor row col := by
    rw [plaid_stimulus_eq_map]
    exact getD_table hr hc
  constructor
  · rw [hentry]
    unfold gabor_pixel
    have hcp : p.preferredGabor.contrast = p.contrast_preferred := rfl
    have hco : p.orthogonalGabor.contrast = p.contrast_orthogonal := rfl
    rw [hcp, hco]
    ring
  · intro h1 h2
    rw [hentry]
    unfold gabor_pixel gabor_amplitude
    have hcp : p.preferredGabor.contrast = p.contrast_preferred := rfl
    have hco : p.orthogonalGabor.contrast = p.contrast_orthogonal := rfl
    rw [hcp, hco, h1, h2]
    ring

noncomputable def plaidParamsC10 : PlaidParams :=
  { location := (0, 0), size := 4, spatial_frequency := 1, orientation := 0
    phase := 0, gamma := 1, contrast_preferred := 0, contrast_orthogonal := 0 }

theorem claim_C10_witness :
    ((PlaidsSet.stimulus (1, 1) (1/2) (-1, 1) plaidParamsC10).getD 0 []).getD 0 0
      = 2 * (1/2) :=
  (claim_C10_plaid_double_grey (1, 1) (1/2) (-1, 1) plaidParamsC10 0 0
    (by norm_num) (by norm_num)).2 rfl rfl

/-- Claim C3: with contrast in `[0,1]` (and a grey level inside the pixel
boundaries, gamma nonnegative as produced from eccentricities in `[0,1]`)
the amplitude `contrast * min(|low - grey|, |high - grey|)` keeps every
Gabor pixel inside `[low, high]`; and for `contrast = 1`, `grey = 0`,
`pixel_boundaries = (-1, 1)` the pixel is the raw envelope-grating product,
whose magnitude never exceeds 1. -/
theorem claim_C3_amplitude_bounds (grey : ℝ) (pb : ℝ × ℝ) (p : GaborParams)
    (row col : ℕ) (hc0 : 0 ≤ p.contrast) (hc1 : p.contrast ≤ 1)
    (hlo : pb.1 ≤ grey) (hhi : grey ≤ pb.2) (hg : 0 ≤ p.gamma) :
    (pb.1 ≤ gabor_pixel grey pb p row col ∧ gabor_pixel grey pb p row col ≤ pb.2)
    ∧ (p.contrast = 1 → grey = 0 → pb = (-1, 1) →
        gabor_pixel grey pb p row col
          = gabor_envelope p row col * gabor_grating p row col
        ∧ |gabor_envelope p row col * gabor_grating p row col| ≤ 1) := by
  have heg := abs_env_grating_le_one p row col hg
  have hampnn : 0 ≤ gabor_amplitude grey pb p.contrast := by
    unfold gabor_amplitude
    exact mul_nonneg hc0 (le_min (abs_nonneg _) (abs_nonneg _))
  have habs : |gabor_pixel grey pb p row col - grey|
      ≤ gabor_amplitude grey pb p.contrast := by
    unfold gabor_pixel
    rw [add_sub_cancel_right, abs_mul]
    calc |gabor_amplitude grey pb p.contrast|
          * |gabor_envelope p row col * gabor_grating p row col|
        ≤ |gabor_amplitude grey pb p.contrast| * 1 :=
          mul_le_mul_of_nonneg_left heg (abs_nonneg _)
    _ = gabor_amplitude grey pb p.contrast := by rw [mul_one, abs_of_nonneg hampnn]
  have h1 : |pb.1 - grey| = grey - pb.1 := by
    rw [abs_of_nonpos (by linarith : pb.1 - grey ≤ 0)]
    ring
  have h2 : |pb.2 - grey| = pb.2 - grey := abs_of_nonneg (by linarith)
  have hamp_le : gabor_amplitude grey pb p.contrast
      ≤ min (grey - pb.1) (pb.2 - grey) := by
    unfold gabor_amplitude
    rw [h1, h2]
    have hminnn : 0 ≤ min (grey - pb.1) (pb.2 - grey) :=
      le_min (by linarith) (by linarith)
    calc p.contrast * min (grey - pb.1) (pb.2 - grey)
        ≤ 1 * min (grey - pb.1) (pb.2 - grey) :=
          mul_le_mul_of_nonneg_right hc1 hminnn
    _ = min (grey - pb.1) (pb.2 - grey) := one_mul _
  have hminl : min (grey - pb.1) (pb.2 - grey) ≤ grey - pb.1 := min_le_left _ _
  have hminr : min (grey - pb.1) (pb.2 - grey) ≤ pb.2 - grey := min_le_right _ _
  have habs' := abs_le.mp habs
  refine ⟨⟨by linarith [habs'.1], by linarith [habs'.2]⟩, ?part2⟩
  intro hce hge hpb
  subst hge
  subst hpb
  refine ⟨?heq, heg⟩
  unfold gabor_pixel gabor_amplitude
  rw [hce]
  norm_num

noncomputable def gaborParamsC3 : GaborParams :=
  { location := (0, 0), size := 4, spatial_frequency := 1, contrast := 1
    orientation := 0, phase := 0, gamma := 1 }

theorem claim_C3_witness :
    (0 ≤ gaborParamsC3.contrast ∧ gaborParamsC3.contrast ≤ 1
      ∧ 0 ≤ gaborParamsC3.gamma)
    ∧ (-1 : ℝ) ≤ gabor_pixel 0 (-1, 1) gaborParamsC3 0 0
    ∧ gabor_pixel 0 (-1, 1) gaborParamsC3 0 0 ≤ 1 := by
  have h := claim_C3_amplitude_bounds 0 (-1, 1) gaborParamsC3 0 0
    (by norm_num [gaborParamsC3]) (by norm_num [gaborParamsC3])
    (by norm_num) (by norm_num) (by norm_num [gaborParamsC3])
  exact ⟨⟨by norm_num [gaborParamsC3], by norm_num [gaborParamsC3],
    by norm_num [gaborParamsC3]⟩, h.1.1, h.1.2⟩

/-! ## Index-resolution lemmas shared by the enumeration claims -/

theorem npUnravelIndex_coe {shape : List ℕ} {i : ℕ} (h : i < shape.prod) :
    npUnravelIndex shape (i : ℤ) = Except.ok (unravelDigits shape i) := by
  have hcond : ¬((i : ℤ) < 0 ∨ (shape.prod : ℤ) ≤ (i : ℤ)) := by
    push_neg
    exact ⟨Int.natCast_nonneg i, by exact_mod_cast h⟩
  unfold npUnravelIndex
  rw [if_neg hcond, Int.toNat_natCast]

theorem unravelDigits_injOn (s : List ℕ) (i j : ℕ) (hi : i < s.prod)
    (hj : j < s.prod) (h : unravelDigits s i = unravelDigits s j) : i = j := by
  have h1 := ravel_unravel s i hi
  have h2 := ravel_unravel s j hj
  rw [← h1, ← h2, h]

theorem unravel_exists_unique (s : List ℕ) (ds : List ℕ)
    (hlen : ds.length = s.length)
    (hlt : ∀ k, k < s.length → ds.getD k 0 < s.getD k 0) :
    ∃! idx : ℕ, idx < s.prod ∧ unravelDigits s idx = ds := by
  obtain ⟨heq, hbound⟩ := unravel_ravel s ds hlen hlt
  refine ⟨ravelDigits s ds, ⟨hbound, heq⟩, ?uniq⟩
  rintro y ⟨hy, hyeq⟩
  have hyr := ravel_unravel s y hy
  rw [hyeq] at hyr
  exact hyr.symm

/-- Count of descriptor `k` equals the length of value list `k`. -/
theorem num_params_getD {α : Type} (sp : StimuliSet α) {k : ℕ}
    (hk : k < sp.valueLists.length) :
    sp.num_params.getD k 0 = (sp.valueLists.getD k []).length := by
  unfold StimuliSet.num_params
  have hk1 : k < (sp.valueLists.map List.length).length := by simpa using hk
  rw [List.getD_eq_getElem _ 0 hk1, List.getElem_map,
    List.getD_eq_getElem _ [] hk]

/-! ## Claim C1 -/

noncomputable def centerSurroundC1 : CenterSurround :=
  { canvas_size := (2, 2), locations := [(0, 0)], sizes_total := [2]
    sizes_center := [1/4], sizes_surround := [1/2], contrasts_center := [1]
    contrasts_surround := [1], orientations_center := [0], orientations_surround := [0]
    spatial_frequencies := [3], phases_center := [0], phases_surround := [0]
    grey_level := 0, pixel_boundaries := (-1, 1), relative_sf := true }

/-- Claim C1 fails on the code: `CenterSurround` inherits the base-class
`params_from_idx`, which never divides the spatial frequency by the
resolved size, although `relative_sf` is `true` (the stored attribute is
never read).  At index 0 of this configuration the resolved spatial
frequency is the configured `3`, not `3 / 2` (`= 3 / size_total`). -/
theorem claim_C1_relative_sf_ignored :
    centerSurroundC1.relative_sf = true
    ∧ (CenterSurround.params_from_idx centerSurroundC1 0).map
        (fun p => (p.spatial_frequency, p.size_total)) = Except.ok ((3 : ℝ), (2 : ℝ))
    ∧ (3 : ℝ) ≠ 3 / 2 := by
  refine ⟨rfl, rfl, by norm_num⟩

/-! ## Claim C2 -/

/-- Claim C2 (amended): index resolution is the row-major mixed-radix
decomposition of `idx` against `counts` — digit `k` is
`idx / prod(counts[k+1:]) mod counts[k]`, so the last digit is
`idx mod counts[last]` and the first descriptor varies slowest — distinct
indices yield distinct digit tuples (hence distinct assignments whenever
every value list is duplicate-free), and every valid digit tuple is hit by
exactly one index in `[0, totalCombinations)`. -/
theorem claim_C2_mixed_radix {α : Type} [Inhabited α] (sp : StimuliSet α)
    (hne : ∀ l ∈ sp.valueLists, l ≠ []) :
    (∀ idx : ℕ, idx < sp.total →
        StimuliSet.params_from_idx sp (idx : ℤ)
          = Except.ok (List.zipWith (fun p ci => p.getD ci default)
              sp.valueLists (unravelDigits sp.num_params idx))
        ∧ (unravelDigits sp.num_params idx).length = sp.num_params.length
        ∧ ∀ k, k < sp.num_params.length →
            (unravelDigits sp.num_params idx).getD k 0
              = idx / ((sp.num_params.drop (k + 1)).prod) % sp.num_params.getD k 0)
    ∧ (∀ i j : ℕ, i < sp.total → j < sp.total →
        unravelDigits sp.num_params i = unravelDigits sp.num_params j → i = j)
    ∧ (∀ ds : List ℕ, ds.length = sp.num_params.length →
        (∀ k, k < sp.num_params.length → ds.getD k 0 < sp.num_params.getD k 0) →
        ∃! idx : ℕ, idx < sp.total ∧ unravelDigits sp.num_params idx = ds)
    ∧ ((∀ l ∈ sp.valueLists, l.Nodup) →
        ∀ i j : ℕ, i < sp.total → j < sp.total →
          StimuliSet.params_from_idx sp (i : ℤ) = StimuliSet.params_from_idx sp (j : ℤ)
          → i = j) := by
  have hLlen : sp.num_params.length = sp.valueLists.length :=
    List.length_map _ _
  have hparams : ∀ idx : ℕ, idx < sp.total →
      StimuliSet.params_from_idx sp (idx : ℤ)
        = Except.ok (List.zipWith (fun p ci => p.getD ci default)
            sp.valueLists (unravelDigits sp.num_params idx)) := by
    intro idx hidx
    unfold StimuliSet.params_from_idx
    rw [npUnravelIndex_coe hidx]
    rfl
  refine ⟨?part1, ?part2, ?part3, ?part4⟩
  · intro idx hidx
    exact ⟨hparams idx hidx, unravelDigits_length _ _,
      fun k hk => unravelDigits_getD _ _ hidx k hk⟩
  · exact fun i j hi hj h => unravelDigits_injOn _ i j hi hj h
  · exact fun ds hlen hlt => unravel_exists_unique _ ds hlen hlt
  · intro hnd i j hi hj heq
    apply unravelDigits_injOn sp.num_params i j hi hj
    rw [hparams i hi, hparams j hj] at heq
    have hok := Except.ok.inj heq
    have hleni : (unravelDigits sp.num_params i).length = sp.num_params.length :=
      unravelDigits_length _ _
    have hlenj : (unravelDigits sp.num_params j).length = sp.num_params.length :=
      unravelDigits_length _ _
    apply List.ext_getElem (by rw [hleni, hlenj])
    intro k hk1 hk2
    have hk : k < sp.num_params.length := by rwa [hleni] at hk1
    have hkL : k < sp.valueLists.length := by rwa [hLlen] at hk
    have hbi := unravelDigits_lt sp.num_params i hi k hk
    have hbj := unravelDigits_lt sp.num_params j hj k hk
    rw [num_params_getD sp hkL] at hbi hbj
    rw [List.getD_eq_getElem _ 0 hk1] at hbi
    rw [List.getD_eq_getElem _ 0 hk2] at hbj
    rw [List.getD_eq_getElem _ [] hkL] at hbi hbj
    have hzi : k < (List.zipWith (fun p ci => p.getD ci default)
        sp.valueLists (unravelDigits sp.num_params i)).length := by
      rw [List.length_zipWith, hleni]
      omega
    have hzj : k < (List.zipWith (fun p ci => p.getD ci default)
        sp.valueLists (unravelDigits sp.num_params j)).length := by
      rw [List.length_zipWith, hlenj]
      omega
    have hstep : (List.zipWith (fun p ci => p.getD ci default)
          sp.valueLists (unravelDigits sp.num_params i)).getD k default
        = (List.zipWith (fun p ci => p.getD ci default)
          sp.valueLists (unravelDigits sp.num_params j)).getD k default := by
      rw [hok]
    rw [List.getD_eq_getElem _ default hzi, List.getD_eq_getElem _ default hzj,
      List.getElem_zipWith, List.getElem_zipWith] at hstep
    rw [List.getD_eq_getElem _ default hbi, List.getD_eq_getElem _ default hbj] at hstep
    exact ((hnd _ (List.getElem_mem hkL)).getElem_inj_iff).mp hstep

noncomputable def gaborDupSizes : GaborSet :=
  { canvas_size := (1, 1), locations := [(0, 0)], sizes := [4, 4]
    spatial_frequencies := [1], contrasts := [1], orientations := [0]
    phases := [0], gammas := [1], grey_level := 0, pixel_boundaries := (-1, 1)
    relative_sf := true }

/-- Claim C2 as stated is false on the code: a `GaborSet` whose `sizes`
list contains the value `4` twice has two distinct valid indices `0` and
`1` that resolve to the same parameter assignment. -/
theorem claim_C2_counterexample :
    GaborSet.total gaborDupSizes = 2
    ∧ (0 : ℤ) ≠ 1
    ∧ GaborSet.params_from_idx gaborDupSizes 0 = GaborSet.params_from_idx gaborDupSizes 1 := by
  exact ⟨rfl, by decide, rfl⟩

def spC2 : StimuliSet ℚ := ⟨[[1, 2], [3, 4, 5]]⟩

theorem claim_C2_witness :
    (unravelDigits (StimuliSet.num_params spC2) 5).getD 1 0
      = 5 / ((StimuliSet.num_params spC2).drop 2).prod
          % (StimuliSet.num_params spC2).getD 1 0 := by
  have h := claim_C2_mixed_radix spC2 (by decide)
  exact (h.1 5 (by decide)).2.2 1 (by decide)

/-! ## Claim C8 -/

/-- Claim C8: for any index below `0` or at/above `totalCombinations()`,
index resolution and stimulus computation fail with the out-of-range
error instead of returning a value — for the base class engine and for the
`GaborSet`/`CenterSurround` specialisations alike. -/
theorem claim_C8_out_of_range :
    (∀ (α : Type) [Inhabited α], ∀ (sp : StimuliSet α)
        (f : List α → List (List ℝ)) (idx : ℤ),
        idx < 0 ∨ (sp.total : ℤ) ≤ idx →
        StimuliSet.params_from_idx sp idx = Except.error indexErrorMsg
        ∧ StimuliSet.stimulus_from_idx sp f idx = Except.error indexErrorMsg)
    ∧ (∀ (g : GaborSet) (idx : ℤ), idx < 0 ∨ (g.total : ℤ) ≤ idx →
        GaborSet.params_from_idx g idx = Except.error indexErrorMsg
        ∧ GaborSet.stimulus_from_idx g idx = Except.error indexErrorMsg)
    ∧ (∀ (s : CenterSurround) (idx : ℤ), idx < 0 ∨ (s.total : ℤ) ≤ idx →
        CenterSurround.params_from_idx s idx = Except.error indexErrorMsg
        ∧ CenterSurround.stimulus_from_idx s idx = Except.error indexErrorMsg) := by
  have hbase : ∀ (shape : List ℕ) (idx : ℤ), idx < 0 ∨ (shape.prod : ℤ) ≤ idx →
      npUnravelIndex shape idx = Except.error indexErrorMsg := by
    intro shape idx h
    unfold npUnravelIndex
    rw [if_pos h]
  refine ⟨?pbase, ?pgabor, ?pcs⟩
  · intro α _ sp f idx h
    have h1 : StimuliSet.params_from_idx sp idx = Except.error indexErrorMsg := by
      unfold StimuliSet.params_from_idx
      rw [hbase _ _ h]
      rfl
    refine ⟨h1, ?hbase2⟩
    unfold StimuliSet.stimulus_from_idx
    rw [h1]
    rfl
  · intro g idx h
    have h1 : GaborSet.params_from_idx g idx = Except.error indexErrorMsg := by
      unfold GaborSet.params_from_idx
      rw [hbase _ _ h]
      rfl
    refine ⟨h1, ?hgab2⟩
    unfold GaborSet.stimulus_from_idx
    rw [h1]
    rfl
  · intro s idx h
    have h1 : CenterSurround.params_from_idx s idx = Except.error indexErrorMsg := by
      unfold CenterSurround.params_from_idx
      rw [hbase _ _ h]
      rfl
    refine ⟨h1, ?hcs2⟩
    unfold CenterSurround.stimulus_from_idx
    rw [h1]
    rfl

def spC8 : StimuliSet ℚ := ⟨[[1], [2, 3]]⟩

theorem claim_C8_witness :
    StimuliSet.params_from_idx spC8 (-1) = Except.error indexErrorMsg
    ∧ StimuliSet.stimulus_from_idx spC8 (fun _ => []) (-1) = Except.error indexErrorMsg :=
  claim_C8_out_of_range.1 ℚ spC8 (fun _ => []) (-1) (by decide)

/-! ## Claim C9 -/

/-- Claim C9: for batch size `b >= 1`, the batch sequence partitions
`[0, totalCombinations)` into contiguous chunks in increasing index order;
every chunk except possibly the last has length exactly `b`, the last has
length `total mod b` (or `b` when `b` divides `total`), the chunk lengths
sum to `total`, and every yielded batch stacks `chunkLength` stimuli of
shape `(height, width)`. -/
theorem claim_C9_batches {α : Type} [Inhabited α] (sp : StimuliSet α)
    (f : List α → List (List ℝ)) (b h w : ℕ) (hb : 0 < b) (hn : 0 < sp.total)
    (hf : ∀ ps, (f ps).length = h ∧ ∀ row ∈ f ps, row.length = w) :
    (batchIndexChunks b sp.total 0).flatten = List.range sp.total
    ∧ StimuliSet.image_batches sp f b = (batchIndexChunks b sp.total 0).map
        (fun ch => ch.map fun (i : ℕ) => StimuliSet.stimulus_from_idx sp f (i : ℤ))
    ∧ (∀ ch ∈ (StimuliSet.image_batches sp f b).dropLast, ch.length = b)
    ∧ (∀ ch, (StimuliSet.image_batches sp f b).getLast? = some ch →
        ch.length = if sp.total % b = 0 then b else sp.total % b)
    ∧ ((StimuliSet.image_batches sp f b).map List.length).sum = sp.total
    ∧ (∀ ch ∈ StimuliSet.image_batches sp f b, ∀ img ∈ ch,
        ∃ m, img = Except.ok m ∧ m.length = h ∧ ∀ row ∈ m, row.length = w) := by
  have hjoin : (batchIndexChunks b sp.total 0).flatten = List.range sp.total := by
    rw [batchIndexChunks_join b sp.total hb 0, Nat.sub_zero, List.range_eq_range']
  refine ⟨hjoin, rfl, ?pdrop, ?plast, ?psum, ?pshape⟩
  · intro ch hch
    unfold StimuliSet.image_batches at hch
    rw [← List.map_dropLast] at hch
    rcases List.mem_map.mp hch with ⟨ch0, hch0, rfl⟩
    rw [List.length_map]
    exact batchIndexChunks_dropLast_aux b sp.total hb (sp.total - 0) 0
      (Nat.le_refl _) ch0 hch0
  · intro ch hch
    unfold StimuliSet.image_batches at hch
    rw [List.getLast?_map] at hch
    rcases Option.map_eq_some'.mp hch with ⟨ch0, hch0, rfl⟩
    rw [List.length_map]
    exact batchIndexChunks_getLast b sp.total hb hn ch0 hch0
  · unfold StimuliSet.image_batches
    rw [List.map_map]
    have hcomp : (batchIndexChunks b sp.total 0).map
          (List.length ∘ fun ch => ch.map fun (i : ℕ) => StimuliSet.stimulus_from_idx sp f (i : ℤ))
        = (batchIndexChunks b sp.total 0).map List.length := by
      apply List.map_congr_left
      intro ch0 _
      simp
    rw [hcomp, ← List.length_flatten, hjoin, List.length_range]
  · intro ch hch img himg
    unfold StimuliSet.image_batches at hch
    rcases List.mem_map.mp hch with ⟨ch0, hch0, rfl⟩
    rcases List.mem_map.mp himg with ⟨i, hi, rfl⟩
    have himem : i ∈ (batchIndexChunks b sp.total 0).flatten :=
      List.mem_flatten.mpr ⟨ch0, hch0, hi⟩
    rw [hjoin] at himem
    have hilt : i < sp.total := List.mem_range.mp himem
    refine ⟨f (List.zipWith (fun p ci => p.getD ci default)
      sp.valueLists (unravelDigits sp.num_params i)), ?pok, (hf _).1, (hf _).2⟩
    unfold StimuliSet.stimulus_from_idx StimuliSet.params_from_idx
    rw [npUnravelIndex_coe hilt]
    rfl

def spC9 : StimuliSet ℚ := ⟨[[1], [2, 3, 4]]⟩

theorem claim_C9_witness :
    0 < (2 : ℕ) ∧ 0 < StimuliSet.total spC9
    ∧ ((StimuliSet.image_batches spC9 (fun _ => [[0]]) 2).map List.length).sum
        = StimuliSet.total spC9 := by
  have h := claim_C9_batches spC9 (fun _ => [[0]]) 2 1 1 (by norm_num) (by decide)
    (fun ps => ⟨rfl, by
      intro row hrow
      simp only [List.mem_singleton] at hrow
      rw [hrow]
      rfl⟩)
  exact ⟨by norm_num, by decide, h.2.2.2.2.1⟩
